import Mathlib

/-!
# Verification of the node-split buffer-splitting library

A shallow embedding of `src/index.js` (module `node-split`) and proofs about it.

Buffers are modelled as `List Nat` (one `Nat` per byte).  JavaScript numbers that
reach the library's validation are modelled exactly: integral inputs as `Int`
(`Math.floor` is the identity on them) and the values of numeric string literals
as `JsNum`, an exact pair `num / 10 ^ pow10`.  Non-finite doubles (`NaN`,
`Infinity`) and IEEE rounding of values beyond the 2^53 exact range are outside
the modelled input space; every value the library accepts lies inside the safe
range where double arithmetic is exact, and both non-finite cases fail the same
validation checks as the modelled failures (see the comments at the use sites).

The JavaScript source field `prefix` is called `filePrefix` here (`prefix` is a
Lean keyword); all other names follow the source.
-/

namespace NodeSplit

/-- Decidable equality for `Except`, so concrete runs of the fallible
operations can be checked by `decide`. -/
instance {ε α : Type} [DecidableEq ε] [DecidableEq α] : DecidableEq (Except ε α) := fun a b =>
  match a, b with
  | .error e, .error f =>
    if h : e = f then .isTrue (h ▸ rfl) else .isFalse fun hh => h (Except.error.inj hh)
  | .ok x, .ok y =>
    if h : x = y then .isTrue (h ▸ rfl) else .isFalse fun hh => h (Except.ok.inj hh)
  | .error _, .ok _ => .isFalse Except.noConfusion
  | .ok _, .error _ => .isFalse Except.noConfusion

/-- `Number.MAX_SAFE_INTEGER` (the negated value is `MIN_SAFE_INTEGER`). -/
def maxSafe : Nat := 2 ^ 53 - 1

/-- `isSafe` from src/index.js:12-15, for an integral JavaScript number:
`Number.MIN_SAFE_INTEGER <= n && n <= Number.MAX_SAFE_INTEGER`. -/
def isSafe (n : Int) : Bool :=
  decide (-(maxSafe : Int) ≤ n) && decide (n ≤ (maxSafe : Int))

/-- ECMAScript `DecimalDigit` (`\d` of the size regex): `0`..`9`. -/
def isDigitChar (c : Char) : Bool :=
  48 ≤ c.toNat && c.toNat ≤ 57

/-- Modelled from the host language: the characters trimmed by ECMAScript
`ToNumber` on strings (`StrWhiteSpace`): space, tab, LF, VT, FF, CR, NBSP,
BOM and the two Unicode line separators (the remaining exotic `Space_Separator`
code points are omitted; none can occur in the inputs treated here). -/
def isJsWhitespaceChar (c : Char) : Bool :=
  c.toNat = 32 || c.toNat = 9 || c.toNat = 10 || c.toNat = 11 || c.toNat = 12 ||
    c.toNat = 13 || c.toNat = 160 || c.toNat = 65279 || c.toNat = 8232 || c.toNat = 8233

/-- Leading/trailing whitespace removal done by ECMAScript `ToNumber` on strings. -/
def jsTrim (l : List Char) : List Char :=
  ((l.dropWhile isJsWhitespaceChar).reverse.dropWhile isJsWhitespaceChar).reverse

/-- The exact value `num / 10 ^ pow10` of a finite decimal JavaScript number. -/
structure JsNum where
  num : Int
  pow10 : Nat
deriving DecidableEq

/-- Denominator of a `JsNum`. -/
def JsNum.den (v : JsNum) : Nat := 10 ^ v.pow10

/-- `isSafe` from src/index.js:12-15 applied to the exact value of a `JsNum`
(`MIN_SAFE_INTEGER <= v && v <= MAX_SAFE_INTEGER`, cleared of the denominator). -/
def isSafeNum (v : JsNum) : Bool :=
  decide (-((maxSafe : Int) * (JsNum.den v : Int)) ≤ v.num) &&
    decide (v.num ≤ (maxSafe : Int) * (JsNum.den v : Int))

/-- `v < 1` on the exact value of a `JsNum`. -/
def ltOneNum (v : JsNum) : Bool :=
  decide (v.num < (JsNum.den v : Int))

/-- `Math.floor` on the exact value of a `JsNum` (floor division). -/
def floorNum (v : JsNum) : Int := Int.fdiv v.num (JsNum.den v : Int)

/-- Value of a list of decimal digit characters. -/
def digitsToNat (l : List Char) : Nat :=
  l.foldl (fun a c => a * 10 + (c.toNat - 48)) 0

/-- Value of one digit character of a hexadecimal/octal/binary literal. -/
def radixDigitVal (c : Char) : Nat :=
  if 97 ≤ c.toNat then c.toNat - 87 else if 65 ≤ c.toNat then c.toNat - 55 else c.toNat - 48

/-- Digit of a base-`base` ECMAScript integer literal (`base` ∈ {2, 8, 16}). -/
def isRadixDigit (base : Nat) (c : Char) : Bool :=
  (isDigitChar c || (97 ≤ c.toNat && c.toNat ≤ 102) || (65 ≤ c.toNat && c.toNat ≤ 70)) &&
    radixDigitVal c < base

/-- Value of a list of base-`base` digits. -/
def radixToNat (base : Nat) (l : List Char) : Nat :=
  l.foldl (fun a c => a * base + radixDigitVal c) 0

/-- Modelled from the host language: the `0x`/`0o`/`0b` integer-literal body of
ECMAScript `ToNumber` (`none` = `NaN`). -/
def parseRadix (base : Nat) (l : List Char) : Option JsNum :=
  if l ≠ [] ∧ l.all (isRadixDigit base) then some ⟨(radixToNat base l : Int), 0⟩ else none

/-- Modelled from the host language: the optional `ExponentPart` of an ECMAScript
decimal literal.  On entry the literal read so far has value `m / 10 ^ f`; a
well-formed exponent is consumed and applied, anything else is left in place
(the caller then fails on the unconsumed remainder, as `ToNumber` does). -/
def parseExp (m : Nat) (f : Nat) (l : List Char) : JsNum × List Char :=
  if l.head? = some 'e' ∨ l.head? = some 'E' then
    let r := l.drop 1
    let r' := if r.head? = some '+' ∨ r.head? = some '-' then r.drop 1 else r
    let ed := r'.takeWhile isDigitChar
    if ed = [] then (⟨(m : Int), f⟩, l)
    else
      let e := digitsToNat ed
      if r.head? = some '-' then (⟨(m : Int), f + e⟩, r'.dropWhile isDigitChar)
      else if f ≤ e then (⟨(m : Int) * 10 ^ (e - f), 0⟩, r'.dropWhile isDigitChar)
      else (⟨(m : Int), f - e⟩, r'.dropWhile isDigitChar)
  else (⟨(m : Int), f⟩, l)

/-- Modelled from the host language: ECMAScript `StrUnsignedDecimalLiteral`
without the `Infinity` production: `Digits ['.' Digits?] Exponent?` or
`'.' Digits Exponent?`; returns the value and the unconsumed remainder. -/
def parseDec (l : List Char) : Option (JsNum × List Char) :=
  let ip := l.takeWhile isDigitChar
  let r1 := l.dropWhile isDigitChar
  if ip = [] then
    if r1.head? = some '.' then
      let r2 := r1.drop 1
      let fp := r2.takeWhile isDigitChar
      if fp = [] then none
      else some (parseExp (digitsToNat fp) fp.length (r2.dropWhile isDigitChar))
    else none
  else
    if r1.head? = some '.' then
      let r2 := r1.drop 1
      let fp := r2.takeWhile isDigitChar
      some (parseExp (digitsToNat ip * 10 ^ fp.length + digitsToNat fp) fp.length
        (r2.dropWhile isDigitChar))
    else some (parseExp (digitsToNat ip) 0 r1)

/-- Modelled from the host language: signed ECMAScript decimal literal covering
the whole (already trimmed) string.  The `Infinity` production yields a
non-finite value outside this model; every use site in the library rejects it
through the same `isSafe` failure that rejects `NaN`, so it is folded into
`none` here (both paths throw the identical validation error). -/
def parseSignedDec (l : List Char) : Option JsNum :=
  let l' := if l.head? = some '+' ∨ l.head? = some '-' then l.drop 1 else l
  if l' = "Infinity".data then none
  else
    match parseDec l' with
    | some (v, []) => some (if l.head? = some '-' then ⟨-v.num, v.pow10⟩ else v)
    | _ => none

/-- Modelled from the host language: ECMAScript `ToNumber` applied to the
character list of a string; `none` stands for `NaN`. -/
def jsStringToNumberL (l : List Char) : Option JsNum :=
  let t := jsTrim l
  if t = [] then some ⟨0, 0⟩
  else if t.head? = some '0' ∧ ((t.drop 1).head? = some 'x' ∨ (t.drop 1).head? = some 'X') then
    parseRadix 16 (t.drop 2)
  else if t.head? = some '0' ∧ ((t.drop 1).head? = some 'o' ∨ (t.drop 1).head? = some 'O') then
    parseRadix 8 (t.drop 2)
  else if t.head? = some '0' ∧ ((t.drop 1).head? = some 'b' ∨ (t.drop 1).head? = some 'B') then
    parseRadix 2 (t.drop 2)
  else parseSignedDec t

/-- Modelled from the host language: ECMAScript `ToNumber` applied to a string;
`none` stands for `NaN`.  Used to model the `isNaN(size)` dispatch of
src/index.js:68 and the numeric coercions of the branch that follows it. -/
def jsStringToNumber (s : String) : Option JsNum :=
  jsStringToNumberL s.data

/-- A `bytes` / `line_bytes` option value: a (finite, integral) number or a string. -/
inductive SizeVal where
  | num (n : Int)
  | str (s : String)
deriving DecidableEq

/-- The loosely-typed `_options` object passed to `checkOptions`
(src/index.js:35).  `none` models an absent / `undefined` / `null` key
(`isDefined`, src/index.js:23-27).  Numeric fields hold the integral doubles of
the modelled input space; `filePrefix` / `additional_suffix` hold the strings
the library coerces them to. -/
structure RawOptions where
  lines : Option Int := none
  bytes : Option SizeVal := none
  line_bytes : Option SizeVal := none
  filePrefix : Option String := none
  suffix_length : Option Int := none
  numeric_suffixes : Option Int := none
  additional_suffix : Option String := none
deriving DecidableEq

/-- The validated configuration record built by `checkOptions` (the fresh
`options` object of src/index.js:36). -/
structure Config where
  lines : Option Nat := none
  bytes : Option Nat := none
  line_bytes : Option Nat := none
  filePrefix : Option String := none
  suffix_length : Option Nat := none
  numeric_suffixes : Option Nat := none
  additional_suffix : Option String := none
deriving DecidableEq

/-- The unit alternation `(KB|MB|K|M)` of the size regex `/^(\d+)(KB|MB|K|M)$/i`
(src/index.js:69), case-insensitively, applied to the part of the string after
the maximal digit run. -/
def unitPatternOk (rest : List Char) : Bool :=
  let low := rest.map Char.toLower
  low == ['k'] || low == ['m'] || low == ['k', 'b'] || low == ['m', 'b']

/-- Whether `/^(\d+)(KB|MB|K|M)$/i.exec(s)` matches (src/index.js:69): a
non-empty leading digit run followed exactly by one of the four units.  The
digit run of a match is `s.data.takeWhile isDigitChar` (= `result[1]`) and the
unit is `s.data.dropWhile isDigitChar` (= `result[2]`, original casing). -/
def sizePatternMatch (s : String) : Bool :=
  !(s.data.takeWhile isDigitChar).isEmpty && unitPatternOk (s.data.dropWhile isDigitChar)

/-- The `switch` on `result[2]` (src/index.js:75-82).  Only the exact spellings
listed in the source are covered; any other casing falls through, the IIFE
returns `undefined`, and `result[1] * undefined` is `NaN` at the use site. -/
def unitValue : List Char → Option Nat
  | ['k'] => some 1024
  | ['K'] => some 1024
  | ['m'] => some 1048576
  | ['M'] => some 1048576
  | ['k', 'b'] => some 1000
  | ['K', 'B'] => some 1000
  | ['m', 'b'] => some 1000000
  | ['M', 'B'] => some 1000000
  | _ => none

/-- The unit spellings the `switch` of src/index.js:75-82 recognizes, with
their multipliers: `K`/`M` binary, `KB`/`MB` decimal. -/
def unitTable : List (String × Nat) :=
  [("k", 1024), ("K", 1024), ("m", 1048576), ("M", 1048576),
    ("kb", 1000), ("KB", 1000), ("mb", 1000000), ("MB", 1000000)]

/-- The mixed-case two-letter unit spellings: they satisfy the case-insensitive
regex but are missing from the `switch` of src/index.js:75-82. -/
def mixedCaseUnits : List String := ["Kb", "kB", "Mb", "mB"]

/-- The numeric branch of the byte-size validation (src/index.js:90-94):
`if (!isSafe(size) || size < 1) throw; options[...] = Math.floor(size)`. -/
def sizeNumericCheck (v : JsNum) : Except String Nat :=
  if !(isSafeNum v) || ltOneNum v then .error "Invalid number of bytes"
  else .ok (floorNum v).toNat

/-- The whole `bytes` / `line_bytes` value check (src/index.js:65-95).  A
number takes the numeric branch directly; a string takes it after `ToNumber`
coercion when `isNaN(size)` is false, and otherwise goes through the size
regex and the unit switch.  (`isNaN` on a *number* is only true for `NaN`,
which is outside the modelled inputs; it would fail exactly like a
non-matching string.) -/
def parseSizeField (size : SizeVal) : Except String Nat :=
  match size with
  | .num n => sizeNumericCheck ⟨n, 0⟩
  | .str s =>
    match jsStringToNumber s with
    | some v => sizeNumericCheck v
    | none =>
      if !(sizePatternMatch s) then .error "Invalid number of bytes"
      else
        match unitValue (s.data.dropWhile isDigitChar) with
        | none => .error "Invalid number of bytes"
        | some m =>
          let v := digitsToNat (s.data.takeWhile isDigitChar) * m
          if maxSafe < v then .error "Invalid number of bytes" else .ok v

/-- The `lines` check (src/index.js:56-63): `isNaN` is false on the modelled
(finite) numbers, and `Math.floor` is the identity on the modelled integral
values. -/
def linesField (o : RawOptions) : Except String Config :=
  match o.lines with
  | none => .ok {}
  | some n =>
    if !(isSafe n) || decide (n < 1) then .error "Invalid number of lines"
    else .ok { lines := some n.toNat }

/-- The suffix-option block of `checkOptions` (src/index.js:98-120), entered
only when a `prefix` key is present.  The second component of the result is the
state of the caller's `_options` object when the function returns: no statement
of the block assigns into `_options`, so it is the unchanged input. -/
def nameOptsStepT (o : RawOptions) (cfg : Config) : Except String Config × RawOptions :=
  match o.filePrefix with
  | none => (.ok cfg, o)
  | some p =>
    let cfg1 : Config := { cfg with filePrefix := some p }
    let withSl : Except String Config :=
      match o.suffix_length with
      | none => .ok cfg1
      | some n =>
        if !(isSafe n) || decide (n < 1) then .error "Invalid suffix length"
        else .ok { cfg1 with suffix_length := some n.toNat }
    match withSl with
    | .error e => (.error e, o)
    | .ok cfg2 =>
      let withNs : Except String Config :=
        match o.numeric_suffixes with
        | none => .ok cfg2
        | some n =>
          if !(isSafe n) || decide (n < 0) then .error ""
          else .ok { cfg2 with numeric_suffixes := some n.toNat }
      match withNs with
      | .error e => (.error e, o)
      | .ok cfg3 =>
        (.ok { cfg3 with additional_suffix := some (o.additional_suffix.getD "") }, o)

/-- `checkOptions` (src/index.js:35-123), with the final state of the caller's
`_options` object threaded through as the second component (the function only
reads `_options`; every write targets the fresh `options` record). -/
def checkOptionsT (o : RawOptions) : Except String Config × RawOptions :=
  let byLines := o.lines.isSome
  let byBytes := o.bytes.isSome
  let byLineBytes := o.line_bytes.isSome
  if (byLines && byBytes) || (byBytes && byLineBytes) || (byLines && byLineBytes) then
    (.error "Cannot split in more than one way", o)
  else if !byLines && !byBytes && !byLineBytes then
    (.error "Splitting way is not specified", o)
  else
    match linesField o with
    | .error e => (.error e, o)
    | .ok cfg1 =>
      if byBytes || byLineBytes then
        -- var size = byBytes ? _options.bytes : _options.line_bytes;
        -- (the getD default is unreachable: the guard ensures the key is present)
        match parseSizeField (if byBytes then o.bytes.getD (.num 0) else o.line_bytes.getD (.num 0)) with
        | .error e => (.error e, o)
        | .ok v =>
          nameOptsStepT o (if byBytes then { cfg1 with bytes := some v }
            else { cfg1 with line_bytes := some v })
      else nameOptsStepT o cfg1

/-- The value `checkOptions` returns (or the error it throws). -/
def checkOptions (o : RawOptions) : Except String Config :=
  (checkOptionsT o).1

/-- `getSuffixLength` (src/index.js:131-135): counts the iterations of
`length = Math.floor(length / symbolLength)` until the value becomes 0.
The loop is modelled with `length` itself as fuel, which suffices for the
radixes the library uses (10 and 26); for `symbolLength <= 1` the source loop
would not terminate at all, and the function is never called that way. -/
def getSuffixLengthGo : Nat → Nat → Nat → Nat
  | 0, _, _ => 0
  | fuel + 1, len, symbolLength =>
    let len' := len / symbolLength
    if len' = 0 then 0 else getSuffixLengthGo fuel len' symbolLength + 1

/-- Entry point of the suffix-length calculator (src/index.js:131-135). -/
def getSuffixLength (len symbolLength : Nat) : Nat :=
  getSuffixLengthGo len len symbolLength

/-- `replicate(length, value).join('')` (src/index.js:143-149 plus the `join`
at the use sites): the padding string. -/
def replicateChars (n : Nat) (c : Char) : String :=
  String.mk (List.replicate n c)

/-- JavaScript `s.slice(-n)`: the last `n` characters (the whole string when
`n` is at least the length).  Every call site passes `n >= 1` (an explicit
suffix length is validated to be >= 1 and an auto-computed one is >= 2). -/
def jsSliceNeg (s : String) (n : Nat) : String :=
  String.mk (s.data.drop (s.data.length - n))

/-- `var alphabet = 'abcdefghijklmnopqrstuvwxyz'` (src/index.js:187). -/
def alphabetChars : List Char := "abcdefghijklmnopqrstuvwxyz".data

/-- The digit-collecting loop of the alphabetic suffix (src/index.js:204-206):
`for (n = i; n > 0; n = Math.floor(n / 26)) suffix.push(alphabet[n % 26])`,
least-significant letter first.  Fuel is `i`, enough because `n` shrinks by a
factor of 26 each step. -/
def alphaSuffixGo : Nat → Nat → List Char
  | 0, _ => []
  | fuel + 1, n =>
    if n = 0 then []
    else alphabetChars.getD (n % alphabetChars.length) 'a' :: alphaSuffixGo fuel (n / alphabetChars.length)

/-- `suffix.reverse().join('')` (src/index.js:209): the base-26 numeral of `i`. -/
def alphaSuffix (i : Nat) : List Char :=
  (alphaSuffixGo i i).reverse

/-- The numeric filename loop (src/index.js:172-180):
`prefix + (padding + (start + i)).slice(-suffix_length) + additional_suffix`.
A missing `prefix` / `additional_suffix` would be rendered as the string
"undefined" by JavaScript's `+`; both are always present on validated
configurations that reach this code. -/
def numericNames (size : Nat) (options : Config) (start sl : Nat) : List String :=
  let padding := replicateChars sl '0'
  (List.range size).map fun i =>
    (Config.filePrefix options).getD "undefined"
      ++ jsSliceNeg (padding ++ Nat.repr (start + i)) sl
      ++ options.additional_suffix.getD "undefined"

/-- The alphabetic filename loop (src/index.js:198-211). -/
def alphaNames (size : Nat) (options : Config) (sl : Nat) : List String :=
  let padding := replicateChars sl 'a'
  (List.range size).map fun i =>
    (Config.filePrefix options).getD "undefined"
      ++ jsSliceNeg (padding ++ String.mk (alphaSuffix i)) sl
      ++ options.additional_suffix.getD "undefined"

/-- `createFilenames` (src/index.js:158-214).  The second component of a
successful result is the state of the `options` record after the call: when no
explicit `suffix_length` is present the source *assigns the auto-computed width
into `options`* (src/index.js:169 and 194-195), so the record comes back with
`suffix_length` set; otherwise it comes back unchanged. -/
def createFilenames (size : Nat) (options : Config) : Except String (List String × Config) :=
  match options.numeric_suffixes with
  | some start =>
    -- if (!isSafe(numeric_suffixes + size - 1)) throw  (here start >= 0, so only
    -- the upper bound can fail; start + size - 1 is -1 only when start = size = 0,
    -- and -1 is safe, matching the Nat truncation below)
    if maxSafe < start + size - 1 then .error ""
    else
      match options.suffix_length with
      | some sl =>
        if sl < getSuffixLength size 10 then .error ""
        else .ok (numericNames size options start sl, options)
      | none =>
        let sl := max (getSuffixLength size 10) 2
        let options' := { options with suffix_length := some sl }
        .ok (numericNames size options' start sl, options')
  | none =>
    match options.suffix_length with
    | some sl =>
      if sl < getSuffixLength size alphabetChars.length then
        .error "output file suffixes exhausted"
      else .ok (alphaNames size options sl, options)
    | none =>
      let sl := max (getSuffixLength size alphabetChars.length) 2
      let options' := { options with suffix_length := some sl }
      .ok (alphaNames size options' sl, options')

/-- `'\n'.charCodeAt(0)` (src/index.js:223). -/
def LF : Nat := 10

/-- The scan loop of `splitByLines` (src/index.js:227-246), as structural
recursion on the bytes still to scan.  `cur` is the current piece
(`buffer.slice(begin, index)` of the source), `lineCount` the running line
counter.  At the end of the buffer the source pushes `buffer.slice(begin)` —
the remainder — only when it is non-empty (when `begin === buffer.length` the
loop exits without pushing). -/
def splitByLinesGo (lines : Nat) : List Nat → List Nat → Nat → List (List Nat)
  | [], cur, _ => if cur.isEmpty then [] else [cur]
  | b :: rest, cur, lineCount =>
    if b = LF then
      if lineCount = lines then (cur ++ [b]) :: splitByLinesGo lines rest [] 1
      else splitByLinesGo lines rest (cur ++ [b]) (lineCount + 1)
    else splitByLinesGo lines rest (cur ++ [b]) lineCount

/-- `splitByLines` (src/index.js:222-249). -/
def splitByLines (buffer : List Nat) (lines : Nat) : List (List Nat) :=
  splitByLinesGo lines buffer [] 1

/-- The chunk loop of `splitByBytes` (src/index.js:260-271), with the buffer
length as fuel (each step drops `size >= 1` bytes, so the fuel suffices; for
`size = 0` — which validation rules out but the string `"0K"` can produce —
the source loop never terminates, while this model stops when the fuel runs
out). -/
def splitByBytesGo : Nat → List Nat → Nat → List (List Nat)
  | 0, _, _ => []
  | fuel + 1, buffer, size =>
    if buffer.isEmpty then []
    else if buffer.length < size then [buffer]
    else buffer.take size :: splitByBytesGo fuel (buffer.drop size) size

/-- `splitByBytes` (src/index.js:257-274). -/
def splitByBytes (buffer : List Nat) (size : Nat) : List (List Nat) :=
  splitByBytesGo buffer.length buffer size

/-- `_split` (src/index.js:282-298): dispatch on the validated configuration.
In the `line_bytes` branch the source maps `splitByBytes` over
`splitByLines(buffer, 1)` and flattens with `reduce`/`push`.  (The `getD 0`
default is unreachable on configurations produced by validation, which always
set one of the three fields.) -/
def buffSplit (buffer : List Nat) (options : Config) : List (List Nat) :=
  match options.lines with
  | some n => splitByLines buffer n
  | none =>
    match options.bytes with
    | some k => splitByBytes buffer k
    | none =>
      ((splitByLines buffer 1).map fun line =>
        splitByBytes line (options.line_bytes.getD 0)).flatten

/-- One of the three splitting modes of a validated configuration. -/
inductive Mode where
  | byLines (n : Nat)
  | byBytes (n : Nat)
  | byLineBytes (n : Nat)
deriving DecidableEq

/-- The mode parameter (lines per piece or bytes per piece). -/
def Mode.param : Mode → Nat
  | .byLines n => n
  | .byBytes n => n
  | .byLineBytes n => n

/-- The configuration selects exactly the given splitting mode (what the
validator guarantees: exactly one of the three keys set). -/
def selectsMode (cfg : Config) : Mode → Prop
  | .byLines n => cfg.lines = some n ∧ cfg.bytes = none ∧ cfg.line_bytes = none
  | .byBytes n => cfg.lines = none ∧ cfg.bytes = some n ∧ cfg.line_bytes = none
  | .byLineBytes n => cfg.lines = none ∧ cfg.bytes = none ∧ cfg.line_bytes = some n

/-- A callback invocation of the non-blocking `split` (src/index.js:343-359):
`success` = `callback(null, splitted)`, `failure` = `callback(err)`. -/
inductive Notif where
  | success
  | failure
deriving DecidableEq

/-- The write-completion handler of the non-blocking `split`
(src/index.js:343-359), folded over the order in which the per-piece
`fs.writeFile` callbacks fire (`true` = that write succeeded).  `total` is
`splitted.length`, `done` and `errored` are the closure variables of the
source; the result lists the callback invocations in order. -/
def writePhaseGo (total : Nat) : List Bool → Nat → Bool → List Notif
  | [], _, _ => []
  | ok :: rest, done, errored =>
    if ok then
      if !errored && done + 1 = total then
        Notif.success :: writePhaseGo total rest (done + 1) errored
      else writePhaseGo total rest (done + 1) errored
    else Notif.failure :: writePhaseGo total rest done true

/-- The callback invocations of one prefixed non-blocking `split` call whose
writes complete in the order given by `completions`. -/
def writePhase (total : Nat) (completions : List Bool) : List Notif :=
  writePhaseGo total completions 0 false

/-! ## Lemmas about the splitter -/

theorem splitByLinesGo_flatten (lines : Nat) (buffer : List Nat) :
    ∀ (cur : List Nat) (lc : Nat), (splitByLinesGo lines buffer cur lc).flatten = cur ++ buffer := by
  induction buffer with
  | nil =>
    intro cur lc
    cases cur <;> simp [splitByLinesGo]
  | cons b rest ih =>
    intro cur lc
    simp only [splitByLinesGo]
    split_ifs <;> simp [ih]

theorem splitByLines_flatten (buffer : List Nat) (lines : Nat) :
    (splitByLines buffer lines).flatten = buffer := by
  simpa using splitByLinesGo_flatten lines buffer [] 1

theorem splitByLinesGo_ne_nil (lines : Nat) (buffer : List Nat) :
    ∀ (cur : List Nat) (lc : Nat), ∀ p ∈ splitByLinesGo lines buffer cur lc, p ≠ [] := by
  induction buffer with
  | nil =>
    intro cur lc p hp
    simp only [splitByLinesGo] at hp
    split_ifs at hp with hc
    · simp at hp
    · simp only [List.mem_singleton] at hp
      subst hp
      exact fun h => hc (List.isEmpty_iff.mpr h)
  | cons b rest ih =>
    intro cur lc p hp
    simp only [splitByLinesGo] at hp
    split_ifs at hp
    · rcases List.mem_cons.mp hp with rfl | hp
      · simp
      · exact ih [] 1 p hp
    · exact ih (cur ++ [b]) (lc + 1) p hp
    · exact ih (cur ++ [b]) lc p hp

theorem splitByBytesGo_flatten (k : Nat) (hk : 1 ≤ k) :
    ∀ (fuel : Nat) (b : List Nat), b.length ≤ fuel → (splitByBytesGo fuel b k).flatten = b := by
  intro fuel
  induction fuel with
  | zero =>
    intro b hb
    rw [List.length_eq_zero.mp (Nat.le_zero.mp hb)]
    rfl
  | succ fuel ih =>
    intro b hb
    simp only [splitByBytesGo]
    split_ifs with h1 h2
    · simp [List.isEmpty_iff.mp h1]
    · simp
    · have hd : (b.drop k).length ≤ fuel := by
        simp only [List.length_drop]
        omega
      simp [ih (b.drop k) hd]

theorem splitByBytes_flatten (b : List Nat) (k : Nat) (hk : 1 ≤ k) :
    (splitByBytes b k).flatten = b :=
  splitByBytesGo_flatten k hk b.length b le_rfl

theorem splitByBytesGo_ne_nil (k : Nat) (hk : 1 ≤ k) :
    ∀ (fuel : Nat) (b : List Nat), ∀ p ∈ splitByBytesGo fuel b k, p ≠ [] := by
  intro fuel
  induction fuel with
  | zero => intro b p hp; simp [splitByBytesGo] at hp
  | succ fuel ih =>
    intro b p hp
    simp only [splitByBytesGo] at hp
    split_ifs at hp with h1 h2
    · simp at hp
    · simp only [List.mem_singleton] at hp
      subst hp
      exact fun h => h1 (List.isEmpty_iff.mpr h)
    · rcases List.mem_cons.mp hp with rfl | hp
      · have hL : b.length ≠ 0 := by
          intro h0
          exact h1 (List.isEmpty_iff.mpr (List.length_eq_zero.mp h0))
        intro htake
        have := congrArg List.length htake
        simp only [List.length_take, List.length_nil] at this
        omega
      · exact ih (b.drop k) p hp

theorem splitByBytesGo_length (k : Nat) (hk : 1 ≤ k) :
    ∀ (fuel : Nat) (b : List Nat), b.length ≤ fuel →
      (splitByBytesGo fuel b k).length = (b.length + k - 1) / k := by
  intro fuel
  induction fuel with
  | zero =>
    intro b hb
    rw [List.length_eq_zero.mp (Nat.le_zero.mp hb)]
    simp [splitByBytesGo, Nat.div_eq_of_lt (by omega : k - 1 < k)]
  | succ fuel ih =>
    intro b hb
    simp only [splitByBytesGo]
    split_ifs with h1 h2
    · have h0 : b.length = 0 := List.length_eq_zero.mpr (List.isEmpty_iff.mp h1)
      simp [h0, Nat.div_eq_of_lt (by omega : k - 1 < k)]
    · have hL : b.length ≠ 0 := by
        intro h0
        exact h1 (List.isEmpty_iff.mpr (List.length_eq_zero.mp h0))
      have hdiv : (b.length + k - 1) / k = 1 :=
        Nat.div_eq_of_lt_le (by omega) (by omega)
      simp [hdiv]
    · have hd : (b.drop k).length ≤ fuel := by
        simp only [List.length_drop]; omega
      have heq : (b.drop k).length + k - 1 = b.length - 1 := by
        simp only [List.length_drop]; omega
      have hsum : b.length + k - 1 = (b.length - 1) + k := by omega
      rw [List.length_cons, ih (b.drop k) hd, heq, hsum,
        Nat.add_div_right _ (by omega : 0 < k)]

theorem splitByBytesGo_nil (fuel k : Nat) : splitByBytesGo fuel [] k = [] := by
  cases fuel <;> simp [splitByBytesGo]

theorem splitByBytesGo_ne_nil_total (fuel : Nat) (b : List Nat) (k : Nat)
    (hb : 1 ≤ b.length) (hf : b.length ≤ fuel) : splitByBytesGo fuel b k ≠ [] := by
  cases fuel with
  | zero => omega
  | succ fuel =>
    simp only [splitByBytesGo]
    have : ¬ b.isEmpty = true := by
      intro h
      rw [List.isEmpty_iff.mp h] at hb
      simp at hb
    split_ifs <;> simp_all

theorem splitByBytesGo_dropLast (k : Nat) (hk : 1 ≤ k) :
    ∀ (fuel : Nat) (b : List Nat), b.length ≤ fuel →
      ∀ p ∈ (splitByBytesGo fuel b k).dropLast, p.length = k := by
  intro fuel
  induction fuel with
  | zero =>
    intro b hb p hp
    rw [List.length_eq_zero.mp (Nat.le_zero.mp hb)] at hp
    simp [splitByBytesGo] at hp
  | succ fuel ih =>
    intro b hb p hp
    simp only [splitByBytesGo] at hp
    split_ifs at hp with h1 h2
    · simp at hp
    · simp at hp
    · by_cases hnil : splitByBytesGo fuel (b.drop k) k = []
      · rw [hnil] at hp
        simp at hp
      · rw [List.dropLast_cons_of_ne_nil hnil] at hp
        rcases List.mem_cons.mp hp with rfl | hp
        · simp only [List.length_take]
          omega
        · exact ih (b.drop k) (by simp only [List.length_drop]; omega) p hp

theorem splitByBytesGo_getLast (k : Nat) (hk : 1 ≤ k) :
    ∀ (fuel : Nat) (b : List Nat), 1 ≤ b.length → b.length ≤ fuel →
      (splitByBytesGo fuel b k).getLast?.map List.length
        = some (b.length - k * ((b.length - 1) / k)) := by
  intro fuel
  induction fuel with
  | zero => intro b hb hf; omega
  | succ fuel ih =>
    intro b hb hf
    simp only [splitByBytesGo]
    split_ifs with h1 h2
    · rw [List.isEmpty_iff.mp h1] at hb
      simp at hb
    · have h0 : (b.length - 1) / k = 0 := Nat.div_eq_of_lt (by omega)
      simp [h0]
    · by_cases hdk : b.length = k
      · have hdrop : b.drop k = [] := List.eq_nil_of_length_eq_zero (by
          simp only [List.length_drop]; omega)
        rw [hdrop, splitByBytesGo_nil]
        have h0 : (b.length - 1) / k = 0 := Nat.div_eq_of_lt (by omega)
        simp only [List.getLast?_singleton, Option.map_some', List.length_take, h0]
        congr 1
        omega
      · have hlen : 1 ≤ (b.drop k).length := by simp only [List.length_drop]; omega
        have hfl : (b.drop k).length ≤ fuel := by simp only [List.length_drop]; omega
        have hnil := splitByBytesGo_ne_nil_total fuel (b.drop k) k hlen hfl
        have htail := ih (b.drop k) hlen hfl
        rcases hrest : splitByBytesGo fuel (b.drop k) k with _ | ⟨x, xs⟩
        · exact absurd hrest hnil
        · rw [hrest] at htail
          rw [List.getLast?_cons_cons, htail]
          congr 1
          simp only [List.length_drop]
          have hstep : (b.length - 1) / k = (b.length - k - 1) / k + 1 := by
            have h1 : b.length - 1 = (b.length - k - 1) + k := by omega
            rw [h1, Nat.add_div_right _ (by omega : 0 < k)]
          rw [hstep, Nat.mul_add, Nat.mul_one]
          have hle : k * ((b.length - k - 1) / k) ≤ b.length - k - 1 := by
            rw [Nat.mul_comm]
            exact Nat.div_mul_le_self _ _
          omega

theorem map_splitByBytes_flatten (k : Nat) (hk : 1 ≤ k) (ls : List (List Nat)) :
    ((ls.map fun line => splitByBytes line k).flatten).flatten = ls.flatten := by
  induction ls with
  | nil => simp
  | cons x rest ih =>
    simp only [List.map_cons, List.flatten_cons, List.flatten_append, ih,
      splitByBytes_flatten x k hk]

/-! ## C1: concatenation of the pieces reconstructs the buffer -/

/-- C1: for every input buffer and every validated configuration selecting
exactly one splitting mode (`ByLines n`, `ByBytes n` or `ByLineBytes n` with
`n >= 1`), the in-order concatenation of the pieces produced by `_split`
equals the input buffer exactly — no byte lost, duplicated or reordered. -/
theorem split_concat_exact (buffer : List Nat) (cfg : Config) (m : Mode)
    (hm : selectsMode cfg m) (hn : 1 ≤ m.param) :
    (buffSplit buffer cfg).flatten = buffer := by
  cases m with
  | byLines n =>
    obtain ⟨h1, _, _⟩ := hm
    simp only [buffSplit, h1]
    exact splitByLines_flatten buffer n
  | byBytes n =>
    obtain ⟨h1, h2, _⟩ := hm
    simp only [buffSplit, h1, h2]
    exact splitByBytes_flatten buffer n hn
  | byLineBytes n =>
    obtain ⟨h1, h2, h3⟩ := hm
    simp only [buffSplit, h1, h2, h3, Option.getD_some]
    rw [map_splitByBytes_flatten n hn, splitByLines_flatten]

/-- Witness for C1 at a concrete buffer and configuration. -/
theorem split_concat_exact_w :
    (buffSplit [97, 10, 98] { bytes := some 2 }).flatten = [97, 10, 98] :=
  split_concat_exact [97, 10, 98] { bytes := some 2 } (.byBytes 2) ⟨rfl, rfl, rfl⟩ (by decide)

/-! ## C7: shape of the by-bytes piece sequence -/

/-- C7 counterexample: for the buffer `[0, 0]` (length `L = 2`) and `k = 2`
the by-bytes splitter produces one piece of length 2, while the claim's
formula for the last piece's length, `L - k * floor (L / k)`, yields 0 (and
the claim simultaneously asserts that value is non-zero). -/
theorem splitByBytes_last_formula_fails :
    splitByBytes [0, 0] 2 = [[0, 0]]
      ∧ (splitByBytes [0, 0] 2).getLast?.map List.length ≠ some (2 - 2 * (2 / 2)) := by
  decide

/-- C7 (amended): for every buffer of length `L >= 1` and every `k >= 1`,
splitting by bytes produces `ceil(L/k)` pieces, each of length exactly `k`
except possibly the last, whose length is `L - k * floor((L-1)/k)` — equal to
`L - k * floor(L/k)` when `k` does not divide `L`, and to `k` when it does —
and is non-zero. -/
theorem splitByBytes_shape (b : List Nat) (k : Nat) (hb : 1 ≤ b.length) (hk : 1 ≤ k) :
    (splitByBytes b k).length = (b.length + k - 1) / k
      ∧ (∀ p ∈ (splitByBytes b k).dropLast, p.length = k)
      ∧ (splitByBytes b k).getLast?.map List.length
          = some (b.length - k * ((b.length - 1) / k))
      ∧ b.length - k * ((b.length - 1) / k) ≠ 0 := by
  refine ⟨splitByBytesGo_length k hk b.length b le_rfl,
    splitByBytesGo_dropLast k hk b.length b le_rfl,
    splitByBytesGo_getLast k hk b.length b hb le_rfl, ?_⟩
  have hle : k * ((b.length - 1) / k) ≤ b.length - 1 := by
    rw [Nat.mul_comm]
    exact Nat.div_mul_le_self _ _
  omega

/-- Witness for C7 at a concrete buffer (`L = 3`, `k = 2`). -/
theorem splitByBytes_shape_w :
    (splitByBytes [5, 6, 7] 2).length = (3 + 2 - 1) / 2
      ∧ (∀ p ∈ (splitByBytes [5, 6, 7] 2).dropLast, p.length = 2)
      ∧ (splitByBytes [5, 6, 7] 2).getLast?.map List.length = some (3 - 2 * ((3 - 1) / 2))
      ∧ 3 - 2 * ((3 - 1) / 2) ≠ 0 :=
  splitByBytes_shape [5, 6, 7] 2 (by decide) (by decide)

/-! ## C9: every produced piece is non-empty -/

/-- C9: for every input buffer and every valid mode parameter (`n >= 1`), no
zero-length piece appears in the sequence produced by `_split`, under any of
the three strategies. -/
theorem split_pieces_nonempty (buffer : List Nat) (cfg : Config) (m : Mode)
    (hm : selectsMode cfg m) (hn : 1 ≤ m.param) :
    ((buffSplit buffer cfg).all fun p => !p.isEmpty) = true := by
  rw [List.all_eq_true]
  intro p hp
  suffices hne : p ≠ [] by simpa [List.isEmpty_iff] using hne
  cases m with
  | byLines n =>
    obtain ⟨h1, _, _⟩ := hm
    simp only [buffSplit, h1] at hp
    exact splitByLinesGo_ne_nil n buffer [] 1 p hp
  | byBytes n =>
    obtain ⟨h1, h2, _⟩ := hm
    simp only [buffSplit, h1, h2] at hp
    exact splitByBytesGo_ne_nil n hn buffer.length buffer p hp
  | byLineBytes n =>
    obtain ⟨h1, h2, h3⟩ := hm
    simp only [buffSplit, h1, h2, h3, Option.getD_some] at hp
    rw [List.mem_flatten] at hp
    obtain ⟨l, hl, hpl⟩ := hp
    rw [List.mem_map] at hl
    obtain ⟨line, _, rfl⟩ := hl
    exact splitByBytesGo_ne_nil n hn line.length line p hpl

/-- Witness for C9 at a concrete buffer and configuration. -/
theorem split_pieces_nonempty_w :
    ((buffSplit [97, 10, 98, 98, 98] { line_bytes := some 2 }).all fun p => !p.isEmpty) = true :=
  split_pieces_nonempty [97, 10, 98, 98, 98] { line_bytes := some 2 } (.byLineBytes 2)
    ⟨rfl, rfl, rfl⟩ (by decide)

/-! ## C5: what the suffix-length calculator computes -/

theorem getSuffixLengthGo_bounds (R : Nat) (hR : 2 ≤ R) :
    ∀ (fuel l : Nat), 1 ≤ l → l ≤ fuel →
      R ^ getSuffixLengthGo fuel l R ≤ l ∧ l < R ^ (getSuffixLengthGo fuel l R + 1) := by
  intro fuel
  induction fuel with
  | zero => intro l hl hf; omega
  | succ fuel ih =>
    intro l hl hf
    simp only [getSuffixLengthGo]
    split_ifs with h0
    · constructor
      · simpa using hl
      · have : l < R := by
          by_contra hge
          rw [Nat.div_eq_zero_iff (by omega)] at h0
          omega
        simpa using this
    · have hl' : 1 ≤ l / R := Nat.one_le_iff_ne_zero.mpr h0
      have hlt : l / R < l := Nat.div_lt_self (by omega) (by omega)
      have hf' : l / R ≤ fuel := by omega
      obtain ⟨ihlo, ihhi⟩ := ih (l / R) hl' hf'
      constructor
      · calc R ^ (getSuffixLengthGo fuel (l / R) R + 1)
            = R ^ getSuffixLengthGo fuel (l / R) R * R := by rw [pow_succ]
          _ ≤ (l / R) * R := Nat.mul_le_mul_right R ihlo
          _ ≤ l := Nat.div_mul_le_self l R
      · have hup : l < (l / R + 1) * R := by
          have hmod := Nat.div_add_mod l R
          have := Nat.mod_lt l (by omega : 0 < R)
          nlinarith [Nat.div_add_mod l R]
        calc l < (l / R + 1) * R := hup
          _ ≤ R ^ (getSuffixLengthGo fuel (l / R) R + 1) * R :=
            Nat.mul_le_mul_right R ihhi
          _ = R ^ (getSuffixLengthGo fuel (l / R) R + 1 + 1) := (pow_succ R _).symm

/-- C5 counterexample: for `N = 2`, `R = 10` the calculator returns 0, but the
smallest `L` with `10 ^ L >= 2` is 1 (indeed `10 ^ 0 < 2`). -/
theorem getSuffixLength_not_minimal :
    getSuffixLength 2 10 = 0 ∧ 10 ^ getSuffixLength 2 10 < 2 := by decide

/-- C5 (amended): for every piece count `N` and radix `R >= 2` (the library
uses 10 and 26), the calculator returns the *largest* `L` such that
`R ^ L <= N` when `N >= 1` — that is, `floor (log_R N)`, one less than the
number of base-`R` digits of `N` — not the smallest `L` with `R ^ L >= N`.
`N = 0` and `N = 1` both yield `L = 0`, and the max-with-2 floor is applied
only by the filename generator, never by the calculator itself. -/
theorem getSuffixLength_floor_log (N R : Nat) (hR : 2 ≤ R) :
    getSuffixLength 0 R = 0 ∧ getSuffixLength 1 R = 0
      ∧ (1 ≤ N → R ^ getSuffixLength N R ≤ N ∧ N < R ^ (getSuffixLength N R + 1)) := by
  refine ⟨rfl, ?_, fun hN => getSuffixLengthGo_bounds R hR N N hN le_rfl⟩
  simp [getSuffixLength, getSuffixLengthGo, Nat.div_eq_of_lt (by omega : 1 < R)]

/-- Witness for C5 at `N = 11`, `R = 10`. -/
theorem getSuffixLength_floor_log_w :
    getSuffixLength 0 10 = 0 ∧ getSuffixLength 1 10 = 0
      ∧ (10 ^ getSuffixLength 11 10 ≤ 11 ∧ 11 < 10 ^ (getSuffixLength 11 10 + 1)) :=
  have h := getSuffixLength_floor_log 11 10 (by decide)
  ⟨h.1, h.2.1, h.2.2 (by decide)⟩

/-! ## C4: notifications of the concurrent write fan-out -/

theorem writePhaseGo_count_failure (total : Nat) :
    ∀ (cs : List Bool) (done : Nat) (errored : Bool),
      (writePhaseGo total cs done errored).count .failure = cs.count false := by
  intro cs
  induction cs with
  | nil => intro done errored; rfl
  | cons ok rest ih =>
    intro done errored
    cases ok <;> simp only [writePhaseGo]
    · simp [List.count_cons, ih]
    · split_ifs <;> simp [List.count_cons, ih]

theorem writePhaseGo_no_success_of_errored (total : Nat) :
    ∀ (cs : List Bool) (done : Nat), Notif.success ∉ writePhaseGo total cs done true := by
  intro cs
  induction cs with
  | nil => intro done; simp [writePhaseGo]
  | cons ok rest ih =>
    intro done
    cases ok <;> simp only [writePhaseGo]
    · simp [ih]
    · simp [ih]

theorem writePhaseGo_success_inv (total : Nat) :
    ∀ (cs : List Bool) (done : Nat), done + cs.length = total →
      Notif.success ∈ writePhaseGo total cs done false →
      writePhaseGo total cs done false = [Notif.success] ∧ ∀ b ∈ cs, b = true := by
  intro cs
  induction cs with
  | nil => intro done _ hmem; simp [writePhaseGo] at hmem
  | cons ok rest ih =>
    intro done hinv hmem
    cases ok with
    | false =>
      simp only [writePhaseGo] at hmem
      rcases List.mem_cons.mp hmem with h | h
      · exact absurd h.symm (by simp)
      · exact absurd h (writePhaseGo_no_success_of_errored total rest done)
    | true =>
      by_cases hdone : done + 1 = total
      · have hrest : rest = [] := by
          have : rest.length = 0 := by
            simp only [List.length_cons] at hinv
            omega
          exact List.length_eq_zero.mp this
        subst hrest
        refine ⟨?_, by simp⟩
        simp [writePhaseGo, hdone]
      · have hred : writePhaseGo total (true :: rest) done false
            = writePhaseGo total rest (done + 1) false := by
          simp [writePhaseGo, hdone]
        rw [hred] at hmem ⊢
        have hinv' : (done + 1) + rest.length = total := by
          simp only [List.length_cons] at hinv
          omega
        obtain ⟨h1, h2⟩ := ih (done + 1) hinv' hmem
        refine ⟨h1, fun b hb => ?_⟩
        rcases List.mem_cons.mp hb with rfl | hb
        · rfl
        · exact h2 b hb

/-- C4 counterexample: with two pieces whose writes both fail, the handler
invokes the completion callback twice — two error notifications reach the
caller, so "at most one terminal notification" is violated. -/
theorem writePhase_two_failures :
    writePhase 2 [false, false] = [Notif.failure, Notif.failure]
      ∧ ¬ (writePhase 2 [false, false]).length ≤ 1 := by decide

/-- C4 (amended): for every completion order of the per-piece writes, one
error notification is delivered per failing write (so several error
notifications can reach the caller), at most one success notification is ever
delivered, and a success is delivered only when every write succeeded — it is
then the only notification, so a success never follows an error. -/
theorem writePhase_notifications (total : Nat) (cs : List Bool) (h : cs.length = total) :
    (writePhase total cs).count .failure = cs.count false
      ∧ (writePhase total cs).count .success ≤ 1
      ∧ (Notif.success ∈ writePhase total cs →
          writePhase total cs = [Notif.success] ∧ ∀ b ∈ cs, b = true) := by
  have hinv : (0 : Nat) + cs.length = total := by omega
  refine ⟨writePhaseGo_count_failure total cs 0 false, ?_, fun hmem =>
    writePhaseGo_success_inv total cs 0 hinv hmem⟩
  by_cases hmem : Notif.success ∈ writePhase total cs
  · have := (writePhaseGo_success_inv total cs 0 hinv hmem).1
    rw [writePhase, this]
    simp
  · rw [List.count_eq_zero.mpr hmem]
    omega

/-- Witness for C4 at the completion order `[true, true]` with two pieces. -/
theorem writePhase_notifications_w :
    (writePhase 2 [true, true]).count .failure = [true, true].count false
      ∧ (writePhase 2 [true, true]).count .success ≤ 1
      ∧ writePhase 2 [true, true] = [Notif.success] :=
  have h := writePhase_notifications 2 [true, true] (by decide)
  ⟨h.1, h.2.1, (h.2.2 (by decide)).1⟩

/-! ## C3: prefixed non-blocking split of an empty buffer -/

/-- C3: for a valid prefixed configuration and a zero-length buffer the piece
sequence is empty, the filename generator succeeds with zero names (so zero
files are written), and the write-completion handler — the only place the
non-blocking `split` ever invokes its callback on the prefixed path — runs
over the zero issued writes and produces *no* callback invocation at all: in
particular the success notification the claim promises is never delivered
(the `done === splitted.length` check of src/index.js:355 only executes inside
a write callback, and no write is issued). -/
theorem split_empty_writes_none (cfg : Config) (m : Mode)
    (hm : selectsMode cfg m) (hp : (Config.filePrefix cfg).isSome = true)
    (hns : ∀ st, cfg.numeric_suffixes = some st → st ≤ maxSafe) :
    buffSplit [] cfg = []
      ∧ (createFilenames 0 cfg).map Prod.fst = .ok []
      ∧ writePhase (buffSplit [] cfg).length [] = [] := by
  have hsplit : buffSplit [] cfg = [] := by
    cases m with
    | byLines n =>
      obtain ⟨h1, _, _⟩ := hm
      simp [buffSplit, h1, splitByLines, splitByLinesGo]
    | byBytes n =>
      obtain ⟨h1, h2, _⟩ := hm
      simp [buffSplit, h1, h2, splitByBytes, splitByBytesGo]
    | byLineBytes n =>
      obtain ⟨h1, h2, h3⟩ := hm
      simp [buffSplit, h1, h2, h3, splitByLines, splitByLinesGo]
  have hnames : (createFilenames 0 cfg).map Prod.fst = .ok [] := by
    cases hnum : cfg.numeric_suffixes with
    | some start =>
      have hsafe : ¬ maxSafe < start - 1 := by
        have := hns start hnum
        omega
      cases hsl : cfg.suffix_length with
      | some sl =>
        have hlt : ¬ sl < getSuffixLength 0 10 := by
          simp [getSuffixLength, getSuffixLengthGo]
        simp [createFilenames, hnum, hsl, hsafe, hlt, numericNames, Except.map]
      | none => simp [createFilenames, hnum, hsl, hsafe, numericNames, Except.map]
    | none =>
      cases hsl : cfg.suffix_length with
      | some sl =>
        have hlt : ¬ sl < getSuffixLength 0 alphabetChars.length := by
          simp [getSuffixLength, getSuffixLengthGo]
        simp [createFilenames, hnum, hsl, hlt, alphaNames, Except.map]
      | none => simp [createFilenames, hnum, hsl, alphaNames, Except.map]
  exact ⟨hsplit, hnames, by rw [hsplit]; rfl⟩

/-- Witness for C3 at a concrete prefixed configuration. -/
theorem split_empty_writes_none_w :
    buffSplit [] { bytes := some 1, filePrefix := some "x", additional_suffix := some "" } = []
      ∧ (createFilenames 0
          { bytes := some 1, filePrefix := some "x", additional_suffix := some "" }).map Prod.fst
            = .ok []
      ∧ writePhase (buffSplit []
          { bytes := some 1, filePrefix := some "x", additional_suffix := some "" }).length []
            = [] :=
  split_empty_writes_none
    { bytes := some 1, filePrefix := some "x", additional_suffix := some "" }
    (.byBytes 1) ⟨rfl, rfl, rfl⟩ (by decide)
    (fun st h => Option.noConfusion h)

/-! ## C2: distinctness of the generated filenames -/

/-- C2 (code bug): at piece count 101, prefixed numeric suffixes starting at 0
and no explicit suffix length, the generator auto-computes width
`max(getSuffixLength(101, 10), 2) = 2`, throws nothing, and returns 101
filenames in which positions 0 and 100 are both `"x00"` — the names are not
pairwise distinct and no `SuffixesExhausted` failure is raised. -/
theorem createFilenames_duplicate :
    (createFilenames 101 { filePrefix := some "x", numeric_suffixes := some 0, additional_suffix := some "" }).map
        (fun p => (p.1.get? 0, p.1.get? 100))
      = .ok (some "x00", some "x00") := by decide

/-! ## C8: mutation of the configuration record -/

/-- C8 counterexample: the filename generator *changes* the configuration
record — called with no explicit `suffix_length`, it stores the auto-computed
width into the record (src/index.js:194-195), so the record comes back with
`suffix_length = some 2` where the validator had left `none`. -/
theorem createFilenames_sets_suffix_length :
    (createFilenames 3 { filePrefix := some "x", additional_suffix := some "" }).map Prod.snd
      = .ok { filePrefix := some "x", additional_suffix := some "", suffix_length := some 2 }
      ∧ ({ filePrefix := some "x", additional_suffix := some "" } : Config).suffix_length
          = none := by decide

/-- C8 (amended): the only field of the configuration record any later stage
of a splitting call ever changes is `suffix_length`, which the filename
generator sets to the auto-computed width when the validator left it absent;
every other field is preserved, and a record that already carries an explicit
`suffix_length` is returned completely unchanged.  (The splitter and the
orchestrator only read the record.) -/
theorem createFilenames_frame (size : Nat) (cfg cfg' : Config) (fns : List String)
    (h : createFilenames size cfg = .ok (fns, cfg')) :
    cfg'.lines = cfg.lines ∧ cfg'.bytes = cfg.bytes ∧ cfg'.line_bytes = cfg.line_bytes
      ∧ Config.filePrefix cfg' = Config.filePrefix cfg
      ∧ cfg'.numeric_suffixes = cfg.numeric_suffixes
      ∧ cfg'.additional_suffix = cfg.additional_suffix
      ∧ (cfg.suffix_length.isSome = true → cfg' = cfg) := by
  cases hnum : cfg.numeric_suffixes with
  | some start =>
    cases hsl : cfg.suffix_length with
    | some sl =>
      simp only [createFilenames, hnum, hsl] at h
      split_ifs at h
      obtain ⟨-, rfl⟩ := by simpa using h
      exact ⟨rfl, rfl, rfl, rfl, hnum, rfl, fun _ => rfl⟩
    | none =>
      simp only [createFilenames, hnum, hsl] at h
      split_ifs at h
      obtain ⟨-, rfl⟩ := by simpa using h
      exact ⟨rfl, rfl, rfl, rfl, rfl, rfl, fun hcontra => absurd hcontra (by simp)⟩
  | none =>
    cases hsl : cfg.suffix_length with
    | some sl =>
      simp only [createFilenames, hnum, hsl] at h
      split_ifs at h
      obtain ⟨-, rfl⟩ := by simpa using h
      exact ⟨rfl, rfl, rfl, rfl, hnum, rfl, fun _ => rfl⟩
    | none =>
      simp only [createFilenames, hnum, hsl] at h
      obtain ⟨-, rfl⟩ := by simpa using h
      exact ⟨rfl, rfl, rfl, rfl, rfl, rfl, fun hcontra => absurd hcontra (by simp)⟩

/-- Witness for C8: a record with an explicit `suffix_length` passes through
the generator unchanged. -/
theorem createFilenames_frame_w :
    ({ filePrefix := some "x", suffix_length := some 1, additional_suffix := some "" } : Config).suffix_length.isSome = true
      ∧ ({ filePrefix := some "x", suffix_length := some 1, additional_suffix := some "" } : Config)
        = { filePrefix := some "x", suffix_length := some 1, additional_suffix := some "" } :=
  have h := createFilenames_frame 1
    { filePrefix := some "x", suffix_length := some 1, additional_suffix := some "" }
    { filePrefix := some "x", suffix_length := some 1, additional_suffix := some "" }
    ["xa"] (by decide)
  ⟨by decide, h.2.2.2.2.2.2 (by decide)⟩

/-! ## C10: the validator does not mutate its input -/

/-- C10: whatever `checkOptions` does — succeed or throw — the state of the
caller's loosely-typed `_options` object at function exit (the second
component of `checkOptionsT`) is exactly the input: the validator builds the
fresh `options` record and never writes into `_options`, so every key keeps
its original value. -/
theorem checkOptions_input_unchanged (o : RawOptions) : (checkOptionsT o).2 = o := by
  have hpre : ∀ cfg, (nameOptsStepT o cfg).2 = o := by
    intro cfg
    unfold nameOptsStepT
    repeat first | rfl | split
  unfold checkOptionsT
  rcases hlf : linesField o with e | cfg1 <;> simp only [hlf] <;> split_ifs <;> try rfl
  · rcases hps : parseSizeField (o.bytes.getD (SizeVal.num 0)) with e | v <;>
      simp only [hps] <;> first | rfl | exact hpre _
  · rcases hps : parseSizeField (o.line_bytes.getD (SizeVal.num 0)) with e | v <;>
      simp only [hps] <;> first | rfl | exact hpre _
  · exact hpre _

/-! ## C6: byte-size strings -/

theorem digitChar_not_ws (c : Char) (h : isDigitChar c = true) :
    isJsWhitespaceChar c = false := by
  simp only [isDigitChar, Bool.and_eq_true, decide_eq_true_eq] at h
  simp only [isJsWhitespaceChar, Bool.or_eq_false_iff, decide_eq_false_iff_not]
  omega

theorem dropWhile_eq_self_of (p : Char → Bool) (l : List Char)
    (h : ∀ c ∈ l, p c = false) : l.dropWhile p = l := by
  cases l with
  | nil => rfl
  | cons a l => simp [List.dropWhile_cons, h a (by simp)]

theorem jsTrim_eq_self (l : List Char) (h : ∀ c ∈ l, isJsWhitespaceChar c = false) :
    jsTrim l = l := by
  unfold jsTrim
  rw [dropWhile_eq_self_of _ l h, dropWhile_eq_self_of _ l.reverse
    (fun c hc => h c (List.mem_reverse.mp hc)), List.reverse_reverse]

theorem takeWhile_append_all (p : Char → Bool) (r : List Char)
    (hr : ∀ c, r.head? = some c → p c = false) :
    ∀ l : List Char, (∀ c ∈ l, p c = true) →
      (l ++ r).takeWhile p = l ∧ (l ++ r).dropWhile p = r := by
  intro l
  induction l with
  | nil =>
    intro _
    cases r with
    | nil => simp
    | cons c cs =>
      have := hr c rfl
      simp [List.takeWhile_cons, List.dropWhile_cons, this]
  | cons a l ih =>
    intro hl
    have ha : p a = true := hl a (by simp)
    have ih' := ih fun c hc => hl c (by simp [hc])
    simp [List.takeWhile_cons, List.dropWhile_cons, ha, ih'.1, ih'.2]

theorem jsStringToNumberL_digits_append (d u : List Char)
    (hd : d ≠ []) (hdd : ∀ c ∈ d, isDigitChar c = true)
    (hu : u ≠ [])
    (huh : ∀ c, u.head? = some c → isDigitChar c = false ∧ isJsWhitespaceChar c = false
      ∧ c ≠ '.' ∧ c ≠ 'e' ∧ c ≠ 'E' ∧ c ≠ 'x' ∧ c ≠ 'X' ∧ c ≠ 'o' ∧ c ≠ 'O'
      ∧ c ≠ 'b' ∧ c ≠ 'B')
    (huw : ∀ c ∈ u, isJsWhitespaceChar c = false) :
    jsStringToNumberL (d ++ u) = none := by
  obtain ⟨c0, d', rfl⟩ : ∃ c0 d', d = c0 :: d' := by
    cases d with
    | nil => exact absurd rfl hd
    | cons a l => exact ⟨a, l, rfl⟩
  obtain ⟨u0, u', rfl⟩ : ∃ u0 u', u = u0 :: u' := by
    cases u with
    | nil => exact absurd rfl hu
    | cons a l => exact ⟨a, l, rfl⟩
  have hc0 : isDigitChar c0 = true := hdd c0 (by simp)
  have hc0n : 48 ≤ c0.toNat ∧ c0.toNat ≤ 57 := by
    simpa [isDigitChar] using hc0
  obtain ⟨hu0d, hu0w, hu0dot, hu0e, hu0E, hu0x, hu0X, hu0o, hu0O, hu0b, hu0B⟩ := huh u0 rfl
  have hnw : ∀ c ∈ (c0 :: d') ++ (u0 :: u'), isJsWhitespaceChar c = false := by
    intro c hc
    rcases List.mem_append.mp hc with hcl | hcr
    · exact digitChar_not_ws c (hdd c hcl)
    · exact huw c hcr
  have htrim := jsTrim_eq_self _ hnw
  have hsec : ∀ ch, (d' ++ u0 :: u').head? = some ch →
      ch ≠ 'x' ∧ ch ≠ 'X' ∧ ch ≠ 'o' ∧ ch ≠ 'O' ∧ ch ≠ 'b' ∧ ch ≠ 'B' := by
    intro ch hch
    cases d' with
    | nil =>
      simp only [List.nil_append, List.head?_cons, Option.some.injEq] at hch
      subst hch
      exact ⟨hu0x, hu0X, hu0o, hu0O, hu0b, hu0B⟩
    | cons c1 d'' =>
      simp only [List.cons_append, List.head?_cons, Option.some.injEq] at hch
      have hb : 48 ≤ c1.toNat ∧ c1.toNat ≤ 57 := by
        simpa [isDigitChar] using hdd c1 (by simp)
      subst hch
      refine ⟨?_, ?_, ?_, ?_, ?_, ?_⟩ <;> (rintro rfl; revert hb; decide)
  have hdrop1 : ((c0 :: d') ++ u0 :: u').drop 1 = d' ++ u0 :: u' := by simp
  have hcondx : ¬(((c0 :: d') ++ u0 :: u').head? = some '0' ∧
      ((((c0 :: d') ++ u0 :: u').drop 1).head? = some 'x'
        ∨ (((c0 :: d') ++ u0 :: u').drop 1).head? = some 'X')) := by
    rintro ⟨-, hx⟩
    rw [hdrop1] at hx
    rcases hx with hx | hx
    · exact (hsec _ hx).1 rfl
    · exact (hsec _ hx).2.1 rfl
  have hcondo : ¬(((c0 :: d') ++ u0 :: u').head? = some '0' ∧
      ((((c0 :: d') ++ u0 :: u').drop 1).head? = some 'o'
        ∨ (((c0 :: d') ++ u0 :: u').drop 1).head? = some 'O')) := by
    rintro ⟨-, hx⟩
    rw [hdrop1] at hx
    rcases hx with hx | hx
    · exact (hsec _ hx).2.2.1 rfl
    · exact (hsec _ hx).2.2.2.1 rfl
  have hcondb : ¬(((c0 :: d') ++ u0 :: u').head? = some '0' ∧
      ((((c0 :: d') ++ u0 :: u').drop 1).head? = some 'b'
        ∨ (((c0 :: d') ++ u0 :: u').drop 1).head? = some 'B')) := by
    rintro ⟨-, hx⟩
    rw [hdrop1] at hx
    rcases hx with hx | hx
    · exact (hsec _ hx).2.2.2.2.1 rfl
    · exact (hsec _ hx).2.2.2.2.2 rfl
  simp only [jsStringToNumberL, htrim]
  rw [if_neg (by simp), if_neg hcondx, if_neg hcondo, if_neg hcondb]
  simp only [parseSignedDec]
  have hplus : ¬(((c0 :: d') ++ u0 :: u').head? = some '+'
      ∨ ((c0 :: d') ++ u0 :: u').head? = some '-') := by
    simp only [List.cons_append, List.head?_cons, Option.some.injEq]
    rintro (rfl | rfl) <;> (revert hc0n; decide)
  rw [if_neg hplus]
  have hinf : ¬((c0 :: d') ++ u0 :: u' = "Infinity".data) := by
    intro h
    rw [show "Infinity".data = 'I' :: "nfinity".data from rfl, List.cons_append] at h
    injection h with hc hrest
    subst hc
    revert hc0n
    decide
  rw [if_neg hinf]
  have htw := takeWhile_append_all isDigitChar (u0 :: u')
    (by
      intro c hc
      simp only [List.head?_cons, Option.some.injEq] at hc
      subst hc
      exact hu0d)
    (c0 :: d') hdd
  simp only [parseDec, htw.1, htw.2]
  rw [if_neg (List.cons_ne_nil c0 d')]
  rw [if_neg (by
    simp only [List.head?_cons, Option.some.injEq]
    rintro rfl
    exact hu0dot rfl)]
  simp only [parseExp]
  rw [if_neg (by
    simp only [List.head?_cons, Option.some.injEq]
    rintro (rfl | rfl)
    · exact hu0e rfl
    · exact hu0E rfl)]

theorem checkOptions_bytes_only (sv : SizeVal) :
    checkOptions { bytes := some sv }
      = match parseSizeField sv with
        | .error e => .error e
        | .ok v => .ok { bytes := some v } := by
  rcases hps : parseSizeField sv with e | v <;>
    simp [checkOptions, checkOptionsT, linesField, nameOptsStepT, hps]

theorem parseSizeField_digits_unit (d u : String)
    (hd : d.data ≠ []) (hdd : ∀ c ∈ d.data, isDigitChar c = true)
    (hu : u.data ≠ [])
    (huh : ∀ c, u.data.head? = some c → isDigitChar c = false ∧ isJsWhitespaceChar c = false
      ∧ c ≠ '.' ∧ c ≠ 'e' ∧ c ≠ 'E' ∧ c ≠ 'x' ∧ c ≠ 'X' ∧ c ≠ 'o' ∧ c ≠ 'O'
      ∧ c ≠ 'b' ∧ c ≠ 'B')
    (huw : ∀ c ∈ u.data, isJsWhitespaceChar c = false)
    (hpat : unitPatternOk u.data = true) :
    parseSizeField (.str (d ++ u))
      = match unitValue u.data with
        | none => .error "Invalid number of bytes"
        | some mult =>
          if maxSafe < digitsToNat d.data * mult then .error "Invalid number of bytes"
          else .ok (digitsToNat d.data * mult) := by
  have hnan : jsStringToNumber (d ++ u) = none := by
    rw [jsStringToNumber, String.data_append]
    exact jsStringToNumberL_digits_append d.data u.data hd hdd hu huh huw
  have htw := takeWhile_append_all isDigitChar u.data
    (fun c hc => (huh c hc).1) d.data hdd
  have hpm : sizePatternMatch (d ++ u) = true := by
    rw [sizePatternMatch, String.data_append, htw.1, htw.2, hpat]
    simp [hd]
  simp only [parseSizeField, hnan]
  rw [if_neg (by simp [hpm])]
  rw [show (d ++ u).data = d.data ++ u.data from String.data_append d u, htw.1, htw.2]

/-- C6 counterexample: the mixed-case unit string `"1Kb"` *does* match the
case-insensitive pattern `^(\d+)(KB|MB|K|M)$` (digits `"1"`, unit `"Kb"`, and
1 * 1000 is safely in range), yet validation rejects it; and the unit-less
numeric string `"123"` does *not* match the pattern, yet validation accepts it
with value 123. -/
theorem checkOptions_size_string_quirks :
    sizePatternMatch "1Kb" = true
      ∧ checkOptions { bytes := some (.str "1Kb") } = .error "Invalid number of bytes"
      ∧ sizePatternMatch "123" = false
      ∧ checkOptions { bytes := some (.str "123") } = .ok { bytes := some 123 } := by
  decide

/-- C6 (amended): a `bytes` size string whose ECMAScript numeric coercion is
`NaN` is matched case-insensitively against `^(\d+)(KB|MB|K|M)$`, but the unit
factor is then looked up by *exact* spelling among `k`/`K` → 1024, `m`/`M` →
1048576, `kb`/`KB` → 1000, `mb`/`MB` → 1000000: for every digit string and
every unit spelled exactly as in that table (product in the safe range),
validation succeeds with the product; for every digit string followed by a
mixed-case two-letter unit (`Kb`, `kB`, `Mb`, `mB`) validation fails even
though the pattern matches; strings that coerce to a number (e.g. `"123"`)
bypass the pattern entirely and take the numeric branch; and every
`NaN`-coercing string that does not match the pattern fails validation. -/
theorem checkOptions_size_string_behavior :
    (∀ d u mult, d.data ≠ [] → (∀ c ∈ d.data, isDigitChar c = true) →
        (u, mult) ∈ unitTable → digitsToNat d.data * mult ≤ maxSafe →
        checkOptions { bytes := some (.str (d ++ u)) }
          = .ok { bytes := some (digitsToNat d.data * mult) })
      ∧ (∀ d u, d.data ≠ [] → (∀ c ∈ d.data, isDigitChar c = true) →
          u ∈ mixedCaseUnits →
          checkOptions { bytes := some (.str (d ++ u)) }
            = .error "Invalid number of bytes")
      ∧ (∀ s, jsStringToNumber s = none → sizePatternMatch s = false →
          checkOptions { bytes := some (.str s) } = .error "Invalid number of bytes") := by
  refine ⟨?_, ?_, ?_⟩
  · intro d u mult hd hdd hmem hsafe
    rw [checkOptions_bytes_only]
    fin_cases hmem <;>
      rw [parseSizeField_digits_unit d _ hd hdd (by decide)
        (by intro c hc; cases hc; decide) (by decide) (by decide)] <;>
      simp only [unitValue] <;>
      rw [if_neg (by omega)]
  · intro d u hd hdd hmem
    rw [checkOptions_bytes_only]
    fin_cases hmem <;>
      rw [parseSizeField_digits_unit d _ hd hdd (by decide)
        (by intro c hc; cases hc; decide) (by decide) (by decide)] <;>
      rfl
  · intro s hnan hpat
    rw [checkOptions_bytes_only]
    simp only [parseSizeField, hnan]
    rw [if_pos (by simp [hpat])]

/-- Witness for C6: a unit spelled as in the switch is accepted, a mixed-case
unit is rejected, and a non-matching `NaN` string is rejected. -/
theorem checkOptions_size_string_behavior_w :
    checkOptions { bytes := some (.str ("2" ++ "K")) } = .ok { bytes := some 2048 }
      ∧ checkOptions { bytes := some (.str ("2" ++ "Kb")) } = .error "Invalid number of bytes"
      ∧ checkOptions { bytes := some (.str "abc") } = .error "Invalid number of bytes" :=
  have h := checkOptions_size_string_behavior
  ⟨h.1 "2" "K" 1024 (by decide) (by decide) (by decide) (by decide),
    h.2.1 "2" "Kb" (by decide) (by decide) (by decide),
    h.2.2 "abc" (by decide) (by decide)⟩

end NodeSplit
